import Mathlib

/-
Verification of the property-records reconciliation pipeline
(cleaner, merger, deduplicator, enricher).

The Python modules are shallowly embedded:
  * strings are Lean strings over their character lists (ASCII semantics
    for case conversion, whitespace and word characters);
  * Python values appearing in records are modelled by `Value`
    (strings, ints, bools, None); Python dicts by association lists;
  * functions returning `Option` model Python functions that can either
    return `None` (normalize_zip_code's fall-through) or raise a
    `TypeError` (`max`/`len` applied to incomparable values), with `none`
    for the exceptional outcome;
  * configuration constants are taken from config/settings.py.
-/

/-! ## ASCII character helpers -/

def is_ascii_upper (c : Char) : Bool := 'A' ≤ c && c ≤ 'Z'

def is_ascii_lower (c : Char) : Bool := 'a' ≤ c && c ≤ 'z'

def is_alpha_char (c : Char) : Bool := is_ascii_upper c || is_ascii_lower c

def is_digit_char (c : Char) : Bool := '0' ≤ c && c ≤ '9'

/-- Regex word character (\w): alphanumeric or underscore. -/
def is_word_char (c : Char) : Bool := is_alpha_char c || is_digit_char c || c = '_'

def is_space_char (c : Char) : Bool :=
  c = ' ' || c = '\t' || c = '\n' || c = '\r' || c = '\x0b' || c = '\x0c'

def to_upper_char (c : Char) : Char :=
  if is_ascii_lower c then Char.ofNat (c.toNat - 32) else c

def to_lower_char (c : Char) : Char :=
  if is_ascii_upper c then Char.ofNat (c.toNat + 32) else c

/-! ## Python string operations -/

def strip_ends (p : Char → Bool) (l : List Char) : List Char :=
  ((l.dropWhile p).reverse.dropWhile p).reverse

/-- Python str.strip(). -/
def py_strip (s : String) : String := ⟨strip_ends is_space_char s.data⟩

/-- Python str.strip('-'). -/
def strip_hyphens (s : String) : String := ⟨strip_ends (· = '-') s.data⟩

/-- Python str.upper() (ASCII). -/
def py_upper (s : String) : String := ⟨s.data.map to_upper_char⟩

def title_go : Bool → List Char → List Char
  | _, [] => []
  | prevCased, c :: cs =>
    (if is_alpha_char c then
      (if prevCased then to_lower_char c else to_upper_char c)
     else c) :: title_go (is_alpha_char c) cs

/-- Python str.title() (ASCII): capitalise each cased character that follows
a non-cased character, lowercase the rest. -/
def py_title (s : String) : String := ⟨title_go false s.data⟩

/-- Python str.isupper() (ASCII): at least one cased character and no
lowercase cased character. -/
def py_is_upper (s : String) : Bool :=
  s.data.any is_alpha_char && s.data.all (fun c => !is_alpha_char c || is_ascii_upper c)

/-- Split on every character satisfying p, keeping empty parts
(Python str.split(sep) semantics). -/
def split_pred (p : Char → Bool) : List Char → List (List Char)
  | [] => [[]]
  | a :: rest =>
    if p a then [] :: split_pred p rest
    else
      match split_pred p rest with
      | w :: ws => (a :: w) :: ws
      | [] => [[a]]

/-- Python str.split(c) with a one-character separator, keeping empties. -/
def py_split_all (c : Char) (s : String) : List String :=
  (split_pred (· = c) s.data).map (fun l => (⟨l⟩ : String))

/-- Python str.split() with no argument: whitespace runs, no empty parts. -/
def py_words (s : String) : List String :=
  ((split_pred is_space_char s.data).map (fun l => (⟨l⟩ : String))).filter (fun w => w ≠ "")

def join_space (ws : List String) : String := String.intercalate " " ws

/-- Python " ".join(s.split()): collapse whitespace runs, trim the ends. -/
def py_collapse (s : String) : String := join_space (py_words s)

def contains_char (c : Char) (s : String) : Bool := s.data.any (· = c)

/-- Python s.split(c, 1) when c occurs in s: the part before the first c
and the part after it. -/
def py_split_first (c : Char) (s : String) : String × String :=
  (⟨s.data.takeWhile (· ≠ c)⟩, ⟨(s.data.dropWhile (· ≠ c)).drop 1⟩)

def lit_starts : List Char → List Char → Bool
  | [], _ => true
  | _ :: _, [] => false
  | a :: ps, b :: ss => a = b && lit_starts ps ss

def contains_sub_l (p : List Char) : List Char → Bool
  | [] => p.isEmpty
  | b :: rest => lit_starts p (b :: rest) || contains_sub_l p rest

/-- Python substring test: `needle in haystack`. -/
def contains_sub (haystack needle : String) : Bool :=
  contains_sub_l needle.data haystack.data

/-- Python str.zfill(n) for non-negative content: left-pad with zeros. -/
def py_zfill (n : Nat) (s : String) : String :=
  if n ≤ s.length then s else ⟨List.replicate (n - s.length) '0' ++ s.data⟩

def take_str (n : Nat) (s : String) : String := ⟨s.data.take n⟩

def drop_str (n : Nat) (s : String) : String := ⟨s.data.drop n⟩

/-- Python s.ljust(n, '0'). -/
def ljust_zero (n : Nat) (s : String) : String :=
  if n ≤ s.length then s else ⟨s.data ++ List.replicate (n - s.length) '0'⟩

/-- Python string comparison a < b: lexicographic on code points. -/
def py_str_lt : List Char → List Char → Bool
  | [], [] => false
  | [], _ :: _ => true
  | _ :: _, [] => false
  | a :: as, b :: bs =>
    if a.toNat < b.toNat then true
    else if b.toNat < a.toNat then false
    else py_str_lt as bs

/-! ## Regex word-boundary matching

The cleaner uses patterns of the form \bLIT\b where LIT is a literal made of
letters, dots and spaces.  \b holds between a word character and a non-word
character (string edges count as non-word).  re.sub scans left to right and
replaces every non-overlapping occurrence; matching is case-insensitive. -/

def ci_eq (a b : Char) : Bool := to_upper_char a = to_upper_char b

/-- Case-insensitive literal match at the head of s; returns the rest. -/
def lit_match_ci : List Char → List Char → Option (List Char)
  | [], s => some s
  | _ :: _, [] => none
  | a :: ps, b :: ss => if ci_eq a b then lit_match_ci ps ss else none

/-- The \b condition before the match: previous char class differs from the
class of the pattern's first character. -/
def bound_before (prev : Option Char) (ph : Char) : Bool :=
  (match prev with | none => false | some c => is_word_char c) != is_word_char ph

/-- The \b condition after the match: class of the pattern's last character
differs from the class of the following character. -/
def bound_after (pl : Char) (rest : List Char) : Bool :=
  is_word_char pl != (match rest with | [] => false | c :: _ => is_word_char c)

def wb_match_at (p : List Char) (ph pl : Char) (prev : Option Char)
    (s : List Char) : Option (List Char) :=
  if bound_before prev ph then
    match lit_match_ci p s with
    | some rest => if bound_after pl rest then some rest else none
    | none => none
  else none

def wb_search_go (p : List Char) (ph pl : Char) (prev : Option Char) :
    List Char → Bool
  | [] => false
  | c :: rest =>
    (wb_match_at p ph pl prev (c :: rest)).isSome || wb_search_go p ph pl (some c) rest

/-- re.search(\b pat \b, s) ≠ None (case-insensitive). -/
def wb_search (pat s : String) : Bool :=
  match pat.data with
  | [] => false
  | ph :: _ => wb_search_go pat.data ph (pat.data.getLastD ph) none s.data

def wb_sub_go (p : List Char) (ph pl : Char) (r : List Char) :
    Nat → Option Char → List Char → List Char
  | 0, _, s => s
  | _ + 1, _, [] => []
  | fuel + 1, prev, c :: rest =>
    match wb_match_at p ph pl prev (c :: rest) with
    | some rest' => r ++ wb_sub_go p ph pl r fuel (some pl) rest'
    | none => c :: wb_sub_go p ph pl r fuel (some c) rest

/-- re.sub(\b pat \b, rep, s) (case-insensitive): replace every
non-overlapping occurrence, scanning left to right. -/
def wb_sub (pat rep s : String) : String :=
  match pat.data with
  | [] => s
  | ph :: _ =>
    ⟨wb_sub_go pat.data ph (pat.data.getLastD ph) rep.data s.data.length none s.data⟩

/-! ## Python values and records -/

/-- A Python value as it appears in a property record. -/
inductive Value where
  | vStr : String → Value
  | vInt : Int → Value
  | vBool : Bool → Value
  | vNone : Value
deriving DecidableEq, Repr

/-- Python truthiness. -/
def py_truthy : Value → Bool
  | .vStr s => s ≠ ""
  | .vInt n => n ≠ 0
  | .vBool b => b
  | .vNone => false

/-- Python str(value). -/
def py_str : Value → String
  | .vStr s => s
  | .vInt n => toString n
  | .vBool b => if b then "True" else "False"
  | .vNone => "None"

/-- Python len(value): defined for strings only in our value domain;
`none` models the TypeError raised otherwise. -/
def py_len : Value → Option Nat
  | .vStr s => some s.length
  | _ => none

def num_val : Value → Option Int
  | .vInt n => some n
  | .vBool b => some (if b then 1 else 0)
  | _ => none

/-- Python max(v1, v2): returns v2 exactly when v2 > v1; `none` models the
TypeError on incomparable types (e.g. str vs int). -/
def py_max_v (v1 v2 : Value) : Option Value :=
  match v1, v2 with
  | .vStr a, .vStr b => some (if py_str_lt a.data b.data then .vStr b else .vStr a)
  | .vStr _, _ => none
  | _, .vStr _ => none
  | a, b =>
    match num_val a, num_val b with
    | some x, some y => some (if x < y then b else a)
    | _, _ => none

/-- A Python dict (property record) as an association list. -/
abbrev Record := List (String × Value)

def rlookup : Record → String → Option Value
  | [], _ => none
  | (k', v) :: rest, k => if k' = k then some v else rlookup rest k

/-- Python record.get(k, d). -/
def rgetD (r : Record) (k : String) (d : Value) : Value := (rlookup r k).getD d

def rkeys (r : Record) : List String := r.map (·.1)

/-- Python record[k] = v: replace in place if the key exists, else append. -/
def rassign : Record → String → Value → Record
  | [], k, v => [(k, v)]
  | (k', v') :: rest, k, v =>
    if k' = k then (k', v) :: rest else (k', v') :: rassign rest k v

def mem_str (k : String) : List String → Bool
  | [] => false
  | a :: rest => if a = k then true else mem_str k rest

/-- First-occurrence deduplication, modelling accumulation into a Python set
(iteration order fixed to first occurrence). -/
def dedup_keys (l : List String) : List String :=
  l.foldl (fun acc k => if mem_str k acc then acc else acc ++ [k]) []

def seq_option {α : Type} : List (Option α) → Option (List α)
  | [] => some []
  | o :: os => do
    let x ← o
    let xs ← seq_option os
    pure (x :: xs)

/-! ## Cleaner (src/cleaner.py), configuration from config/settings.py -/

/-- NAME_NORMALIZATION["entity_suffixes"]. -/
def entity_suffixes : List String := ["LLC", "CORP", "INC", "TRUST", "LP", "LLP", "CO"]

/-- The suffix token list hard-coded in _convert_last_first_format. -/
def comma_guard_suffixes : List String := ["LLC", "CORP", "INC", "TRUST", "LP", "LLP"]

/-- Dotted variant of a suffix: "LLC" becomes "L.L.C.". -/
def dotted_pattern (suf : String) : String := ⟨suf.data.foldr (fun c acc => c :: '.' :: acc) []⟩

/-- Spaced variant of a suffix: "LLC" becomes "L L C". -/
def spaced_pattern (suf : String) : String := ⟨suf.data.intersperse ' '⟩

/-- PropertyCleaner._convert_last_first_format: rewrite "LAST, FIRST" to
"FIRST LAST" when the name contains a comma and no entity suffix token occurs
as a substring of the uppercased name. -/
def convert_last_first_format (name : String) : String :=
  if contains_char ',' name then
    let parts := py_split_first ',' name
    let last_name := py_strip parts.1
    let first_name := py_strip parts.2
    if comma_guard_suffixes.any (fun suf => contains_sub (py_upper name) suf) then name
    else first_name ++ " " ++ last_name
  else name

/-- PropertyCleaner._normalize_entity_suffix: for each configured suffix, the
first of the patterns \bSUF\b, \bS.U.F.\b, \bS U F\b that matches the
uppercased name triggers a substitution applied to the uppercased name
(later suffixes overwrite the result of earlier ones). -/
def normalize_entity_suffix (name : String) : String :=
  let name_upper := py_upper name
  entity_suffixes.foldl
    (fun cur suf =>
      let pats := [suf, dotted_pattern suf, spaced_pattern suf]
      match pats.find? (fun p => wb_search p name_upper) with
      | some p => wb_sub p suf name_upper
      | none => cur)
    name

/-- Words kept fully uppercase by _to_title_case. -/
def uppercase_words : List String := entity_suffixes ++ ["LLC", "LP", "LLP"]

/-- PropertyCleaner._to_title_case: entity suffixes stay uppercase, uppercase
words of at most three letters are preserved as acronyms, other words are
title-cased. -/
def to_title_case (name : String) : String :=
  join_space ((py_words name).map (fun w =>
    if mem_str (py_upper w) uppercase_words then py_upper w
    else if w.length ≤ 3 && py_is_upper w then w
    else py_title w))

/-- PropertyCleaner.normalize_owner_name, with the configuration toggles of
NAME_NORMALIZATION (all enabled) taken from config/settings.py. -/
def normalize_owner_name (v : Value) : String :=
  match v with
  | .vStr s =>
    if s = "" then ""
    else
      let n1 := py_collapse s
      let n2 := convert_last_first_format n1
      let n3 := normalize_entity_suffix n2
      let n4 := to_title_case n3
      py_strip (py_collapse n4)
  | _ => ""

/-- ADDRESS_NORMALIZATION["street_abbreviations"], in definition order. -/
def street_abbreviations : List (String × String) :=
  [("STREET", "ST"), ("AVENUE", "AVE"), ("BOULEVARD", "BLVD"), ("DRIVE", "DR"),
   ("ROAD", "RD"), ("LANE", "LN"), ("COURT", "CT"), ("CIRCLE", "CIR"),
   ("PLACE", "PL"), ("NORTH", "N"), ("SOUTH", "S"), ("EAST", "E"), ("WEST", "W")]

/-- PropertyCleaner._standardize_street_abbreviations. -/
def standardize_street_abbreviations (address : String) : String :=
  street_abbreviations.foldl (fun a p => wb_sub p.1 p.2 a) address

/-- PropertyCleaner.normalize_address (uppercase and whitespace toggles of
ADDRESS_NORMALIZATION enabled). -/
def normalize_address (v : Value) : String :=
  match v with
  | .vStr s =>
    if s = "" then ""
    else py_strip (py_collapse (standardize_street_abbreviations (py_upper (py_collapse s))))
  | _ => ""

/-- PropertyCleaner.normalize_city. -/
def normalize_city (v : Value) : String :=
  match v with
  | .vStr s => if s = "" then "" else py_strip (py_title (py_collapse s))
  | _ => ""

def state_abbrev_map : List (String × String) :=
  [("NORTH CAROLINA", "NC"), ("SOUTH CAROLINA", "SC"), ("VIRGINIA", "VA"),
   ("GEORGIA", "GA"), ("TENNESSEE", "TN")]

def assoc_str : List (String × String) → String → Option String
  | [], _ => none
  | (k, v) :: rest, s => if k = s then some v else assoc_str rest s

/-- PropertyCleaner.normalize_state. -/
def normalize_state (v : Value) : String :=
  match v with
  | .vStr s =>
    if s = "" then ""
    else
      let st := py_upper (py_strip s)
      let st := match assoc_str state_abbrev_map st with
        | some ab => ab
        | none => st
      if 2 < st.length then take_str 2 st else st
  | _ => ""

/-- PropertyCleaner.normalize_zip_code.  `some s` models returning the string
s; `none` models the Python fall-through that returns None (reached when the
cleaned value contains more than one interior hyphen). -/
def normalize_zip_code (v : Value) : Option String :=
  match v with
  | .vStr s =>
    if s = "" then some ""
    else
      let z1 : String := ⟨s.data.filter (fun c => is_digit_char c || c = '-')⟩
      let z2 := strip_hyphens z1
      if contains_char '-' z2 then
        let parts := py_split_all '-' z2
        if parts.length = 2 then
          some (py_zfill 5 (parts.headD "") ++ "-" ++ ljust_zero 4 (take_str 4 (parts.getD 1 "")))
        else none
      else if z2.length = 9 then some (take_str 5 z2 ++ "-" ++ drop_str 5 z2)
      else if z2.length ≤ 5 then some (py_zfill 5 z2)
      else some (take_str 5 z2)
  | _ => some ""

/-- The value stored back by clean_record for zip_code (a Python None return
is stored as the None value). -/
def zip_to_value (v : Value) : Value :=
  match normalize_zip_code v with
  | some s => .vStr s
  | none => .vNone

/-- One conditional normalisation step of clean_record: update the field in
place when it is present, leave the record unchanged otherwise. -/
def clean_field (r : Record) (f : String) (g : Value → Value) : Record :=
  match rlookup r f with
  | some v => rassign r f (g v)
  | none => r

/-- The fields clean_record rewrites. -/
def cleaned_fields : List String :=
  ["owner_name", "property_address", "mailing_address", "city", "state", "zip_code"]

/-- PropertyCleaner.clean_record: copy the record and normalise the six
cleaned fields when present. -/
def clean_record (r : Record) : Record :=
  let c1 := clean_field r "owner_name" (fun v => .vStr (normalize_owner_name v))
  let c2 := clean_field c1 "property_address" (fun v => .vStr (normalize_address v))
  let c3 := clean_field c2 "mailing_address" (fun v => .vStr (normalize_address v))
  let c4 := clean_field c3 "city" (fun v => .vStr (normalize_city v))
  let c5 := clean_field c4 "state" (fun v => .vStr (normalize_state v))
  clean_field c5 "zip_code" zip_to_value

/-! ## Merger (src/merger.py) -/

/-- Merge statistics accumulated by merge_sources. -/
structure MergeStats where
  wake_only : Nat
  orange_only : Nat
  merged : Nat
  total : Nat
deriving DecidableEq, Repr

/-- Key normalisation used by _group_by_key: str(value).strip().upper(). -/
def norm_key (v : Value) : String := py_upper (py_strip (py_str v))

/-- Append a record to the group of a key in an insertion-ordered group map
(defaultdict(list) semantics). -/
def group_add : List (String × List Record) → String → Record → List (String × List Record)
  | [], k, r => [(k, [r])]
  | (k', l) :: rest, k, r =>
    if k' = k then (k', l ++ [r]) :: rest else (k', l) :: group_add rest k r

/-- Group lookup with the empty list as default. -/
def glookup : List (String × List Record) → String → List Record
  | [], _ => []
  | (k', l) :: rest, k => if k' = k then l else glookup rest k

/-- PropertyMerger._group_by_key: records whose key value is falsy are
skipped; the rest are grouped by the normalised key value. -/
def group_by_key (records : List Record) (key : String) : List (String × List Record) :=
  records.foldl
    (fun acc r =>
      let kv := rgetD r key .vNone
      if py_truthy kv then group_add acc (norm_key kv) r else acc)
    []

/-- Is the value empty for _merge_field_values: None, or a blank string. -/
def is_empty_for_merge (v : Value) : Bool :=
  match v with
  | .vNone => true
  | .vStr s => py_strip s = ""
  | _ => false

def val_eq_str (v : Value) (p : String) : Bool :=
  match v with
  | .vStr s => s = p
  | _ => false

/-- PropertyMerger._merge_field_values. -/
def merge_field_values (v1 v2 : Value) (prefer : Option String) (s1 s2 : Value) : Value :=
  let e1 := is_empty_for_merge v1
  let e2 := is_empty_for_merge v2
  if e1 && !e2 then v2
  else if e2 && !e1 then v1
  else if e1 && e2 then .vStr ""
  else
    let fallback : Value :=
      match v1, v2 with
      | .vStr a, .vStr b => if b.length ≤ a.length then .vStr a else .vStr b
      | _, _ => v1
    match prefer with
    | some p =>
      if p ≠ "" then
        if val_eq_str s1 p then v1
        else if val_eq_str s2 p then v2
        else fallback
      else fallback
    | none => fallback

def vals_to_strs : List Value → Option (List String)
  | [] => some []
  | .vStr s :: vs => (vals_to_strs vs).map (s :: ·)
  | _ => none

/-- Python sep.join(values): `none` models the TypeError on a non-string
element. -/
def join_vals (sep : String) (vs : List Value) : Option String :=
  (vals_to_strs vs).map (String.intercalate sep)

def collect_truthy (v1 v2 : Value) : List Value :=
  (if py_truthy v1 then [v1] else []) ++ (if py_truthy v2 then [v2] else [])

/-- The merged value of one field in merge_record_pair, with the special
cases for source, source_url and extracted_at.  `none` models a TypeError. -/
def merge_pair_field (r1 r2 : Record) (prefer : Option String) (f : String) : Option Value :=
  let v1 := rgetD r1 f .vNone
  let v2 := rgetD r2 f .vNone
  if f = "source" then (join_vals " + " (collect_truthy v1 v2)).map .vStr
  else if f = "source_url" then (join_vals " | " (collect_truthy v1 v2)).map .vStr
  else if f = "extracted_at" then
    if py_truthy v1 && py_truthy v2 then py_max_v v1 v2
    else some (if py_truthy v1 then v1 else if py_truthy v2 then v2 else .vStr "")
  else
    some (merge_field_values v1 v2 prefer (rgetD r1 "source" .vNone) (rgetD r2 "source" .vNone))

def build_pair_fields (r1 r2 : Record) (prefer : Option String) : List String → Option Record
  | [] => some []
  | f :: fs => do
    let v ← merge_pair_field r1 r2 prefer f
    let rest ← build_pair_fields r1 r2 prefer fs
    pure ((f, v) :: rest)

/-- PropertyMerger.merge_record_pair: field-wise reconciliation over the
union of keys, then the is_cross_source_merged tag.  `none` models a
TypeError raised while merging a field. -/
def merge_record_pair (r1 r2 : Record) (prefer : Option String) : Option Record :=
  (build_pair_fields r1 r2 prefer (dedup_keys (rkeys r1 ++ rkeys r2))).map
    (fun m => rassign m "is_cross_source_merged" (.vBool true))

/-- The cross product of pair merges for one key, in loop order. -/
def cross_pairs : List Record → List Record → List (Option Record)
  | [], _ => []
  | a :: as, bs => bs.map (fun b => merge_record_pair a b none) ++ cross_pairs as bs

/-- One iteration of the merge_sources key loop: the records contributed for
one key together with the wake_only, orange_only and merged increments. -/
def process_key (wb ob : List (String × List Record)) (k : String) :
    Option (List Record × Nat × Nat × Nat) :=
  let wg := glookup wb k
  let og := glookup ob k
  if !wg.isEmpty && !og.isEmpty then
    (seq_option (cross_pairs wg og)).map (fun l => (l, 0, 0, l.length))
  else if !wg.isEmpty then some (wg, wg.length, 0, 0)
  else some (og, 0, og.length, 0)

def merge_keys_go (wb ob : List (String × List Record)) :
    List String → Option (List Record × Nat × Nat × Nat)
  | [] => some ([], 0, 0, 0)
  | k :: ks => do
    let p ← process_key wb ob k
    let rest ← merge_keys_go wb ob ks
    pure (p.1 ++ rest.1, p.2.1 + rest.2.1, p.2.2.1 + rest.2.2.1, p.2.2.2 + rest.2.2.2)

/-- The key set iterated by merge_sources (first-occurrence order). -/
def all_merge_keys (wb ob : List (String × List Record)) : List String :=
  dedup_keys (wb.map (·.1) ++ ob.map (·.1))

/-- PropertyMerger.merge_sources.  `none` models a TypeError raised while
merging some pair of records. -/
def merge_sources (wake orange : List Record) (key : String) :
    Option (List Record × MergeStats) :=
  let wb := group_by_key wake key
  let ob := group_by_key orange key
  (merge_keys_go wb ob (all_merge_keys wb ob)).map
    (fun t => (t.1, ⟨t.2.1, t.2.2.1, t.2.2.2, t.1.length⟩))

/-- The number of merged pairs merge_sources counts for one key. -/
def merged_pairs_count (wb ob : List (String × List Record)) (k : String) : Nat :=
  let wg := glookup wb k
  let og := glookup ob k
  if !wg.isEmpty && !og.isEmpty then wg.length * og.length else 0

/-! ## Deduplicator (src/deduplicator.py), thresholds from config/settings.py -/

/-- DEDUP_THRESHOLDS["fuzzy_name_threshold"]. -/
def fuzzy_name_threshold : Int := 90

/-- DEDUP_THRESHOLDS["fuzzy_address_threshold"]. -/
def fuzzy_address_threshold : Int := 95

/-- The owner-name comparison key of _is_fuzzy_duplicate:
str(record.get("owner_name", "")).strip().upper(). -/
def owner_key (r : Record) : String :=
  py_upper (py_strip (py_str (rgetD r "owner_name" (.vStr ""))))

/-- The address comparison key of _is_fuzzy_duplicate. -/
def addr_key (r : Record) : String :=
  py_upper (py_strip (py_str (rgetD r "property_address" (.vStr ""))))

/-- PropertyDeduplicator._is_fuzzy_duplicate, parameterised by the similarity
scorer (fuzzywuzzy's token_sort_ratio in the deployed configuration). -/
def is_fuzzy_duplicate (sim : String → String → Int) (r1 r2 : Record) : Bool :=
  let name1 := owner_key r1
  let name2 := owner_key r2
  let addr1 := addr_key r1
  let addr2 := addr_key r2
  if name1 = "" || name2 = "" then false
  else
    let name_match := fuzzy_name_threshold ≤ sim name1 name2
    if addr1 ≠ "" && addr2 ≠ "" then
      name_match && (fuzzy_address_threshold ≤ sim addr1 addr2)
    else name_match

/-- The non-empty test of _merge_most_complete: value is not None and
value != "". -/
def nonempty_val (v : Value) : Bool :=
  match v with
  | .vNone => false
  | .vStr s => s ≠ ""
  | _ => true

/-- The non-empty values collected for one field across a duplicate group,
in group order. -/
def field_values (group : List Record) (f : String) : List Value :=
  group.filterMap (fun rec =>
    let v := rgetD rec f .vNone
    if nonempty_val v then some v else none)

def max_by_len_go : Value → Nat → List Value → Option Value
  | cur, _, [] => some cur
  | cur, ncur, v :: vs => do
    let n ← py_len v
    if ncur < n then max_by_len_go v n vs else max_by_len_go cur ncur vs

/-- Python max(values, key=len): earliest value of maximal length; `none`
models the TypeError when some value has no len(). -/
def py_max_by_len : List Value → Option Value
  | [] => none
  | v :: vs => do
    let n ← py_len v
    max_by_len_go v n vs

/-- The merged value of one field in _merge_most_complete. -/
def most_complete_value (vs : List Value) : Option Value :=
  match vs with
  | [] => some (.vStr "")
  | v0 :: _ =>
    match v0 with
    | .vStr _ => py_max_by_len vs
    | _ => some v0

def group_keys : List Record → List String
  | [] => []
  | r :: rs => rkeys r ++ group_keys rs

/-- The field set iterated by _merge_most_complete (first-occurrence order
modelling the accumulated set). -/
def all_group_fields (group : List Record) : List String := dedup_keys (group_keys group)

def build_group_fields (group : List Record) : List String → Option Record
  | [] => some []
  | f :: fs => do
    let v ← most_complete_value (field_values group f)
    let rest ← build_group_fields group fs
    pure ((f, v) :: rest)

/-- PropertyDeduplicator._merge_most_complete.  `none` models the TypeError
raised by max(values, key=len) when a string-led value list contains a
non-string. -/
def merge_most_complete (group : List Record) : Option Record :=
  (build_group_fields group (all_group_fields group)).map
    (fun m => rassign (rassign m "is_merged" (.vBool true)) "duplicate_count" (.vInt group.length))

/-- PropertyDeduplicator.merge_duplicate_group: empty groups give {},
singleton groups are returned verbatim, otherwise the strategy is applied
(unknown strategies fall back to most_complete). -/
def merge_duplicate_group (group : List Record) (strategy : String) : Option Record :=
  if group.isEmpty then some []
  else if group.length = 1 then some (group.headD [])
  else if strategy = "first" then some (group.headD [])
  else if strategy = "last" then some (group.getLastD [])
  else merge_most_complete group

/-! ## Enricher (src/enricher.py), weights from config/settings.py -/

/-- QUALITY_SCORE_WEIGHTS. -/
def quality_score_weights : List (String × Nat) :=
  [("owner_name", 20), ("parcel_id", 15), ("property_address", 15),
   ("mailing_address", 10), ("city", 5), ("state", 5), ("zip_code", 5),
   ("county", 5), ("assessed_value", 10), ("sale_date", 5), ("sale_price", 5)]

/-- Python isinstance(v, (int, float)) and v == 0 (bool is a subtype of int). -/
def numeric_eq_zero : Value → Bool
  | .vInt n => n = 0
  | .vBool b => !b
  | _ => false

def blank_str : Value → Bool
  | .vStr s => py_strip s = ""
  | _ => false

/-- PropertyEnricher._has_value. -/
def has_value (r : Record) (f : String) : Bool :=
  match rlookup r f with
  | none => false
  | some v =>
    if v = .vNone then false
    else if blank_str v then false
    else if (f = "assessed_value" || f = "sale_price") && numeric_eq_zero v then false
    else true

/-- PropertyEnricher.calculate_quality_score.  The weights are integers, so
the Python float sum is integral, max(0.0, ·) is the identity on it and
round(·, 2) is the identity; the score is therefore modelled as a natural
number clamped at 100. -/
def calculate_quality_score (r : Record) : Nat :=
  min 100 (quality_score_weights.foldl (fun acc fw => if has_value r fw.1 then acc + fw.2 else acc) 0)

/-- The reading of "owner name missing or empty" for the fuzzy predicate:
the field is absent, or holds a string that is empty after stripping. -/
def owner_missing_or_empty (r : Record) : Prop :=
  rlookup r "owner_name" = none ∨
  ∃ s, rlookup r "owner_name" = some (.vStr s) ∧ py_strip s = ""

/-! ## Helper lemmas -/

theorem rkeys_cons (p : String × Value) (rest : Record) :
    rkeys (p :: rest) = p.1 :: rkeys rest := rfl

theorem rlookup_rassign_self (r : Record) (k : String) (v : Value) :
    rlookup (rassign r k v) k = some v := by
  induction r with
  | nil => simp [rassign, rlookup]
  | cons p rest ih =>
    obtain ⟨k0, v0⟩ := p
    by_cases h0 : k0 = k <;> simp [rassign, rlookup, h0, ih]

theorem rlookup_rassign_ne (r : Record) (k : String) (v : Value) (k' : String)
    (h : k' ≠ k) : rlookup (rassign r k v) k' = rlookup r k' := by
  induction r with
  | nil => simp [rassign, rlookup, Ne.symm h]
  | cons p rest ih =>
    obtain ⟨k0, v0⟩ := p
    by_cases h0 : k0 = k
    · have hk : ¬ k = k' := Ne.symm h
      simp [rassign, rlookup, h0, hk]
    · by_cases h1 : k0 = k'
      · simp [rassign, rlookup, h0, h1, h]
      · simp [rassign, rlookup, h0, h1, ih]

theorem rkeys_rassign_of_isSome (r : Record) (k : String) (v : Value)
    (h : (rlookup r k).isSome) : rkeys (rassign r k v) = rkeys r := by
  induction r with
  | nil => simp [rlookup] at h
  | cons p rest ih =>
    obtain ⟨k0, v0⟩ := p
    by_cases h0 : k0 = k
    · simp [rassign, rkeys, h0]
    · simp only [rlookup, h0, if_false] at h
      rw [show rassign ((k0, v0) :: rest) k v = (k0, v0) :: rassign rest k v from by
        simp [rassign, h0]]
      rw [rkeys_cons, rkeys_cons, ih h]

theorem mem_rkeys_of_isSome (r : Record) (f : String)
    (h : (rlookup r f).isSome) : f ∈ rkeys r := by
  induction r with
  | nil => simp [rlookup] at h
  | cons p rest ih =>
    obtain ⟨k0, v0⟩ := p
    rw [rkeys_cons]
    by_cases h0 : k0 = f
    · exact List.mem_cons.mpr (Or.inl h0.symm)
    · simp only [rlookup, h0, if_false] at h
      exact List.mem_cons.mpr (Or.inr (ih h))

theorem mem_str_iff (k : String) (l : List String) : mem_str k l = true ↔ k ∈ l := by
  induction l with
  | nil => simp [mem_str]
  | cons a rest ih =>
    by_cases h : a = k
    · simp [mem_str, h]
    · have h' : ¬ k = a := fun hh => h hh.symm
      simp [mem_str, h, h', ih]

theorem mem_dedup_keys_aux (l : List String) :
    ∀ (acc : List String) (a : String), a ∈ acc ∨ a ∈ l →
      a ∈ l.foldl (fun acc k => if mem_str k acc then acc else acc ++ [k]) acc := by
  induction l with
  | nil =>
    intro acc a h
    simpa using h.resolve_right (by simp)
  | cons b rest ih =>
    intro acc a h
    simp only [List.foldl_cons]
    apply ih
    rcases h with h | h
    · left
      by_cases hm : mem_str b acc <;> simp [hm, h]
    · rcases List.mem_cons.mp h with h | h
      · subst h
        by_cases hm : mem_str a acc
        · exact Or.inl (by simpa [hm] using (mem_str_iff _ _).mp hm)
        · simp [hm]
      · exact Or.inr h

theorem mem_dedup_keys (l : List String) (a : String) (h : a ∈ l) :
    a ∈ dedup_keys l := mem_dedup_keys_aux l [] a (Or.inr h)

theorem clean_field_keys (r : Record) (f : String) (g : Value → Value) :
    rkeys (clean_field r f g) = rkeys r := by
  unfold clean_field
  cases h : rlookup r f with
  | none => rfl
  | some v => exact rkeys_rassign_of_isSome r f (g v) (by simp [h])

theorem clean_field_lookup_ne (r : Record) (f : String) (g : Value → Value)
    (f' : String) (h : f' ≠ f) :
    rlookup (clean_field r f g) f' = rlookup r f' := by
  unfold clean_field
  cases hl : rlookup r f with
  | none => rfl
  | some v => exact rlookup_rassign_ne r f (g v) f' h

/-- C9: clean_record returns a record with exactly the key list of its input,
and every field other than the six cleaned ones keeps its original value.
The Python function writes only into record.copy(), so the caller's record
is never mutated; in this pure embedding that is inherent, and the theorem
expresses the remaining frame conditions. -/
theorem clean_record_frame (r : Record) :
    rkeys (clean_record r) = rkeys r ∧
    ∀ f, f ∉ cleaned_fields → rlookup (clean_record r) f = rlookup r f := by
  constructor
  · unfold clean_record
    rw [clean_field_keys, clean_field_keys, clean_field_keys, clean_field_keys,
      clean_field_keys, clean_field_keys]
  · intro f hf
    simp only [cleaned_fields, List.mem_cons, List.not_mem_nil, or_false, not_or] at hf
    obtain ⟨h1, h2, h3, h4, h5, h6⟩ := hf
    unfold clean_record
    rw [clean_field_lookup_ne _ _ _ _ h6, clean_field_lookup_ne _ _ _ _ h5,
      clean_field_lookup_ne _ _ _ _ h4, clean_field_lookup_ne _ _ _ _ h3,
      clean_field_lookup_ne _ _ _ _ h2, clean_field_lookup_ne _ _ _ _ h1]

/-- Witness for C9 at a concrete record. -/
theorem clean_record_frame_witness :
    rkeys (clean_record [("owner_name", .vStr "SMITH, JOHN"), ("county", .vStr "Wake")]) =
      rkeys [("owner_name", .vStr "SMITH, JOHN"), ("county", .vStr "Wake")] ∧
    rlookup (clean_record [("owner_name", .vStr "SMITH, JOHN"), ("county", .vStr "Wake")]) "county" =
      rlookup [("owner_name", .vStr "SMITH, JOHN"), ("county", .vStr "Wake")] "county" :=
  ⟨(clean_record_frame _).1, (clean_record_frame _).2 "county" (by decide)⟩

/-- C4 (code bug): normalize_zip_code promises a string in 5-digit or
DDDDD-DDDD form, but on "1-2-3" (two interior hyphens) every branch is
missed and Python returns None, and on "123456-78" the main part is
zero-padded but never truncated, so a 6-digit main part survives.
Non-string input does return the empty string. -/
theorem normalize_zip_code_bug :
    normalize_zip_code (.vStr "1-2-3") = none ∧
    normalize_zip_code (.vStr "123456-78") = some "123456-7800" ∧
    normalize_zip_code (.vInt 12345) = some "" := by decide

/-- C6 (code bug): owner-name normalization is not idempotent.  For a name
with two commas the first pass rewrites only the first comma
("A, B, C" becomes "B, C A"), leaving a comma that the second pass rewrites
again ("C A B"). -/
theorem normalize_owner_name_not_idempotent :
    normalize_owner_name (.vStr "A, B, C") = "B, C A" ∧
    normalize_owner_name (.vStr "B, C A") = "C A B" ∧
    normalize_owner_name (.vStr (normalize_owner_name (.vStr "A, B, C"))) ≠
      normalize_owner_name (.vStr "A, B, C") := by decide

/-- C10: merge_duplicate_group returns the empty record on an empty group and
the single member verbatim on a singleton group, for every strategy string,
without adding is_merged or duplicate_count. -/
theorem merge_duplicate_group_trivial (strategy : String) (r : Record) :
    merge_duplicate_group [] strategy = some [] ∧
    merge_duplicate_group [r] strategy = some r := by
  constructor
  · rfl
  · simp [merge_duplicate_group]

/-- C7 counterexample: "INCE, JOHN" contains a comma and none of the entity
suffix tokens as a whole word, yet the comma rewrite is skipped, because the
code tests substring containment and "INC" occurs inside "INCE"; the claimed
output "John Ince" is not produced. -/
theorem convert_last_first_whole_word_cex :
    contains_char ',' "INCE, JOHN" = true ∧
    comma_guard_suffixes.any (fun suf => wb_search suf (py_upper "INCE, JOHN")) = false ∧
    normalize_owner_name (.vStr "INCE, JOHN") = "Ince, John" ∧
    normalize_owner_name (.vStr "INCE, JOHN") ≠ "John Ince" := by decide

/-- C7 (amended): for every name that contains a comma and does not contain
any entity suffix token (LLC, CORP, INC, TRUST, LP, LLP) as a substring of
its uppercase form, _convert_last_first_format rewrites "LAST, FIRST" to
"FIRST LAST"; in particular normalize_owner_name("SMITH, JOHN") is
"John Smith". -/
theorem convert_last_first_rewrite (name : String)
    (h1 : contains_char ',' name = true)
    (h2 : ∀ suf ∈ comma_guard_suffixes, contains_sub (py_upper name) suf = false) :
    convert_last_first_format name =
      py_strip (py_split_first ',' name).2 ++ " " ++ py_strip (py_split_first ',' name).1 ∧
    normalize_owner_name (.vStr "SMITH, JOHN") = "John Smith" := by
  constructor
  · have hany : comma_guard_suffixes.any (fun suf => contains_sub (py_upper name) suf) = false :=
      List.any_eq_false.mpr (fun x hx => by simp [h2 x hx])
    unfold convert_last_first_format
    simp [h1, hany]
  · decide

/-- Witness for C7 at the concrete name "DOE, JANE". -/
theorem convert_last_first_rewrite_witness :
    convert_last_first_format "DOE, JANE" =
      py_strip (py_split_first ',' "DOE, JANE").2 ++ " " ++ py_strip (py_split_first ',' "DOE, JANE").1 ∧
    normalize_owner_name (.vStr "SMITH, JOHN") = "John Smith" :=
  convert_last_first_rewrite "DOE, JANE" (by decide) (by decide)

theorem foldl_weight_filter (l : List (String × Nat)) (q : String × Nat → Bool) :
    ∀ init : Nat,
      l.foldl (fun acc fw => if q fw then acc + fw.2 else acc) init =
        init + ((l.filter q).map (·.2)).sum := by
  induction l with
  | nil => intro init; simp
  | cons fw rest ih =>
    intro init
    by_cases h : q fw
    · simp only [List.foldl_cons, if_pos h, List.filter_cons, h, if_true,
        List.map_cons, List.sum_cons, ih (init + fw.2)]
      omega
    · simp only [List.foldl_cons, if_neg h, List.filter_cons, h, Bool.false_eq_true,
        if_false, ih init]

/-- C8: the quality score is bounded by 100, equals the clamped sum of the
configured weights over exactly the fields that have a value, is 0 when no
weighted field is populated and 100 (the full weight sum, clamped) when all
of them are. -/
theorem quality_score_bounds (r : Record) :
    calculate_quality_score r ≤ 100 ∧
    calculate_quality_score r =
      min 100 (((quality_score_weights.filter (fun fw => has_value r fw.1)).map (·.2)).sum) ∧
    ((∀ fw ∈ quality_score_weights, has_value r fw.1 = false) →
      calculate_quality_score r = 0) ∧
    ((∀ fw ∈ quality_score_weights, has_value r fw.1 = true) →
      calculate_quality_score r = 100) := by
  have key : calculate_quality_score r =
      min 100 (((quality_score_weights.filter (fun fw => has_value r fw.1)).map (·.2)).sum) := by
    unfold calculate_quality_score
    rw [foldl_weight_filter, Nat.zero_add]
  refine ⟨key ▸ min_le_left _ _, key, ?_, ?_⟩
  · intro h
    rw [key]
    have hnil : quality_score_weights.filter (fun fw => has_value r fw.1) = [] :=
      List.filter_eq_nil_iff.mpr (fun a ha => by simp [h a ha])
    rw [hnil]
    rfl
  · intro h
    rw [key]
    have hall : quality_score_weights.filter (fun fw => has_value r fw.1) =
        quality_score_weights :=
      List.filter_eq_self.mpr (fun a ha => by simp [h a ha])
    rw [hall]
    rfl

/-- Witness for C8: a fully populated record scores 100, the empty record 0. -/
theorem quality_score_bounds_witness :
    calculate_quality_score
      [("owner_name", .vStr "A"), ("parcel_id", .vStr "P"), ("property_address", .vStr "X"),
       ("mailing_address", .vStr "M"), ("city", .vStr "C"), ("state", .vStr "NC"),
       ("zip_code", .vStr "27510"), ("county", .vStr "Orange"), ("assessed_value", .vInt 100),
       ("sale_date", .vStr "2020"), ("sale_price", .vInt 5)] = 100 ∧
    calculate_quality_score [] = 0 :=
  ⟨(quality_score_bounds _).2.2.2 (by decide), (quality_score_bounds []).2.2.1 (by decide)⟩

theorem owner_key_of_missing (r : Record) (h : owner_missing_or_empty r) :
    owner_key r = "" := by
  unfold owner_key rgetD
  rcases h with h | ⟨s, h, hs⟩
  · rw [h]; decide
  · rw [h]
    show py_upper (py_strip s) = ""
    rw [hs]; rfl

/-- C3: the fuzzy-duplicate predicate, for every similarity scorer: it is
false when either owner name is missing or strips to the empty string, false
when the name similarity is below the name threshold (90), it requires
address similarity at or above the address threshold (95) in addition to the
name test when both address keys are non-empty, and it reduces to the name
test alone when either address key is empty. -/
theorem fuzzy_duplicate_thresholds (sim : String → String → Int) (r1 r2 : Record) :
    ((owner_missing_or_empty r1 ∨ owner_missing_or_empty r2) →
      is_fuzzy_duplicate sim r1 r2 = false) ∧
    (sim (owner_key r1) (owner_key r2) < fuzzy_name_threshold →
      is_fuzzy_duplicate sim r1 r2 = false) ∧
    (addr_key r1 ≠ "" → addr_key r2 ≠ "" →
      (is_fuzzy_duplicate sim r1 r2 = true ↔
        owner_key r1 ≠ "" ∧ owner_key r2 ≠ "" ∧
        fuzzy_name_threshold ≤ sim (owner_key r1) (owner_key r2) ∧
        fuzzy_address_threshold ≤ sim (addr_key r1) (addr_key r2))) ∧
    ((addr_key r1 = "" ∨ addr_key r2 = "") →
      (is_fuzzy_duplicate sim r1 r2 = true ↔
        owner_key r1 ≠ "" ∧ owner_key r2 ≠ "" ∧
        fuzzy_name_threshold ≤ sim (owner_key r1) (owner_key r2))) := by
  refine ⟨?_, ?_, ?_, ?_⟩
  · intro h
    unfold is_fuzzy_duplicate
    rcases h.imp (owner_key_of_missing r1) (owner_key_of_missing r2) with h0 | h0 <;>
      simp [h0]
  · intro h
    unfold is_fuzzy_duplicate
    by_cases h1 : owner_key r1 = ""
    · simp [h1]
    · by_cases h2 : owner_key r2 = ""
      · simp [h2]
      · have hm : ¬ (fuzzy_name_threshold ≤ sim (owner_key r1) (owner_key r2)) :=
          not_le.mpr h
        simp only [h1, h2]
        split <;> simp [hm]
  · intro ha1 ha2
    unfold is_fuzzy_duplicate
    by_cases h1 : owner_key r1 = ""
    · simp [h1]
    · by_cases h2 : owner_key r2 = ""
      · simp [h2]
      · simp [h1, h2, ha1, ha2, and_assoc]
  · intro ha
    unfold is_fuzzy_duplicate
    by_cases h1 : owner_key r1 = ""
    · simp [h1]
    · by_cases h2 : owner_key r2 = ""
      · simp [h2]
      · rcases ha with ha | ha <;> simp [h1, h2, ha]

/-- Witness for C3: a whitespace owner name never matches, even for a scorer
that returns 100 everywhere. -/
theorem fuzzy_duplicate_thresholds_witness :
    is_fuzzy_duplicate (fun _ _ => (100 : Int))
      [("owner_name", .vStr " ")] [("owner_name", .vStr " ")] = false :=
  (fuzzy_duplicate_thresholds (fun _ _ => (100 : Int))
      [("owner_name", .vStr " ")] [("owner_name", .vStr " ")]).1
    (Or.inl (Or.inr ⟨" ", by decide, by decide⟩))

theorem field_values_nonempty (group : List Record) (f : String) (v : Value)
    (h : v ∈ field_values group f) : nonempty_val v = true := by
  unfold field_values at h
  rcases List.mem_filterMap.mp h with ⟨rec, _, hrec⟩
  by_cases hv : nonempty_val (rgetD rec f .vNone) = true
  · simp only [hv, if_true, Option.some_inj] at hrec
    rw [← hrec]; exact hv
  · simp [hv] at hrec

theorem mem_field_values (group : List Record) (f : String) (rec : Record)
    (hrec : rec ∈ group) (hv : nonempty_val (rgetD rec f .vNone) = true) :
    rgetD rec f .vNone ∈ field_values group f := by
  unfold field_values
  exact List.mem_filterMap.mpr ⟨rec, hrec, by simp [hv]⟩

theorem max_by_len_go_mem (rest : List Value) :
    ∀ (cur v : Value) (ncur : Nat),
      max_by_len_go cur ncur rest = some v → v = cur ∨ v ∈ rest := by
  induction rest with
  | nil =>
    intro cur v ncur h
    simp only [max_by_len_go, Option.some_inj] at h
    exact Or.inl h.symm
  | cons u us ih =>
    intro cur v ncur h
    simp only [max_by_len_go, Option.bind_eq_bind, Option.bind_eq_some] at h
    rcases h with ⟨n, hn, h⟩
    by_cases hlt : ncur < n
    · rw [if_pos hlt] at h
      rcases ih u v n h with h' | h'
      · exact Or.inr (List.mem_cons.mpr (Or.inl h'))
      · exact Or.inr (List.mem_cons.mpr (Or.inr h'))
    · rw [if_neg hlt] at h
      rcases ih cur v ncur h with h' | h'
      · exact Or.inl h'
      · exact Or.inr (List.mem_cons.mpr (Or.inr h'))

theorem max_by_len_go_bound (rest : List Value) :
    ∀ (cur v : Value) (ncur : Nat),
      max_by_len_go cur ncur rest = some v → py_len cur = some ncur →
      ∃ nv, py_len v = some nv ∧ ncur ≤ nv ∧
        ∀ u ∈ rest, ∀ nu, py_len u = some nu → nu ≤ nv := by
  induction rest with
  | nil =>
    intro cur v ncur h hc
    simp only [max_by_len_go, Option.some_inj] at h
    exact ⟨ncur, h ▸ hc, le_refl _, by simp⟩
  | cons u us ih =>
    intro cur v ncur h hc
    simp only [max_by_len_go, Option.bind_eq_bind, Option.bind_eq_some] at h
    rcases h with ⟨n, hn, h⟩
    by_cases hlt : ncur < n
    · rw [if_pos hlt] at h
      rcases ih u v n h hn with ⟨nv, h1, h2, h3⟩
      refine ⟨nv, h1, le_of_lt (lt_of_lt_of_le hlt h2), ?_⟩
      intro w hw nw hnw
      rcases List.mem_cons.mp hw with hw | hw
      · subst hw
        rw [hn] at hnw
        exact (Option.some_inj.mp hnw) ▸ h2
      · exact h3 w hw nw hnw
    · rw [if_neg hlt] at h
      rcases ih cur v ncur h hc with ⟨nv, h1, h2, h3⟩
      refine ⟨nv, h1, h2, ?_⟩
      intro w hw nw hnw
      rcases List.mem_cons.mp hw with hw | hw
      · subst hw
        rw [hn] at hnw
        have : nw = n := Option.some_inj.mp hnw.symm
        omega
      · exact h3 w hw nw hnw

theorem py_max_by_len_spec (v0 : Value) (vs : List Value) (v : Value)
    (h : py_max_by_len (v0 :: vs) = some v) :
    v ∈ v0 :: vs ∧
    ∀ u ∈ v0 :: vs, ∀ nu, py_len u = some nu →
      ∃ nv, py_len v = some nv ∧ nu ≤ nv := by
  simp only [py_max_by_len, Option.bind_eq_bind, Option.bind_eq_some] at h
  rcases h with ⟨n0, hn0, h⟩
  constructor
  · rcases max_by_len_go_mem vs v0 v n0 h with h' | h'
    · exact List.mem_cons.mpr (Or.inl h')
    · exact List.mem_cons.mpr (Or.inr h')
  · rcases max_by_len_go_bound vs v0 v n0 h hn0 with ⟨nv, h1, h2, h3⟩
    intro u hu nu hnu
    rcases List.mem_cons.mp hu with hu | hu
    · subst hu
      rw [hn0] at hnu
      exact ⟨nv, h1, (Option.some_inj.mp hnu) ▸ h2⟩
    · exact ⟨nv, h1, h3 u hu nu hnu⟩

theorem most_complete_value_mem (v0 : Value) (vs : List Value) (v : Value)
    (h : most_complete_value (v0 :: vs) = some v) : v ∈ v0 :: vs := by
  unfold most_complete_value at h
  cases v0 with
  | vStr s => exact (py_max_by_len_spec _ _ _ h).1
  | vInt n => exact (Option.some_inj.mp h) ▸ List.mem_cons_self _ _
  | vBool b => exact (Option.some_inj.mp h) ▸ List.mem_cons_self _ _
  | vNone => exact (Option.some_inj.mp h) ▸ List.mem_cons_self _ _

theorem build_group_fields_lookup (group : List Record) (fs : List String) :
    ∀ m, build_group_fields group fs = some m →
      ∀ f ∈ fs, ∃ v, rlookup m f = some v ∧
        most_complete_value (field_values group f) = some v := by
  induction fs with
  | nil => intro m _ f hf; simp at hf
  | cons f0 rest ih =>
    intro m hm f hf
    simp only [build_group_fields, Option.bind_eq_bind, Option.bind_eq_some,
      Option.pure_def, Option.some_inj] at hm
    rcases hm with ⟨v0, hv0, m', hm', hm⟩
    by_cases hf0 : f0 = f
    · subst hf0
      exact ⟨v0, by subst hm; simp [rlookup], hv0⟩
    · rcases List.mem_cons.mp hf with h | h
      · exact absurd h.symm hf0
      · rcases ih m' hm' f h with ⟨v, hv, hmc⟩
        exact ⟨v, by subst hm; simp [rlookup, hf0, hv], hmc⟩

theorem mem_group_keys (group : List Record) (rec : Record) (f : String)
    (hrec : rec ∈ group) (hf : f ∈ rkeys rec) : f ∈ group_keys group := by
  induction group with
  | nil => simp at hrec
  | cons g gs ih =>
    rcases List.mem_cons.mp hrec with h | h
    · subst h
      exact List.mem_append.mpr (Or.inl hf)
    · exact List.mem_append.mpr (Or.inr (ih h))

theorem isSome_of_nonempty_rgetD (rec : Record) (f : String)
    (h : nonempty_val (rgetD rec f .vNone) = true) : (rlookup rec f).isSome := by
  unfold rgetD at h
  cases hl : rlookup rec f with
  | none => rw [hl] at h; simp [nonempty_val] at h
  | some v => rfl

theorem field_values_mem_rec (group : List Record) (f : String) (v : Value)
    (h : v ∈ field_values group f) : ∃ rec ∈ group, rgetD rec f .vNone = v := by
  unfold field_values at h
  rcases List.mem_filterMap.mp h with ⟨rec, hrec, hv⟩
  by_cases hn : nonempty_val (rgetD rec f .vNone) = true
  · simp only [hn, if_true, Option.some_inj] at hv
    exact ⟨rec, hrec, hv⟩
  · simp [hn] at hv

theorem merge_dg_most_complete_eq (group : List Record) (h2 : 2 ≤ group.length) :
    merge_duplicate_group group "most_complete" = merge_most_complete group := by
  cases group with
  | nil => simp at h2
  | cons a rest =>
    cases rest with
    | nil => simp at h2
    | cons b rest2 =>
      unfold merge_duplicate_group
      rw [if_neg (by simp), if_neg (by simp), if_neg (by decide), if_neg (by decide)]

theorem merge_most_complete_parts (group : List Record) (merged : Record)
    (h : merge_most_complete group = some merged) :
    ∃ m, build_group_fields group (all_group_fields group) = some m ∧
      merged = rassign (rassign m "is_merged" (.vBool true)) "duplicate_count"
        (.vInt group.length) := by
  unfold merge_most_complete at h
  cases hb : build_group_fields group (all_group_fields group) with
  | none => rw [hb] at h; simp at h
  | some m =>
    rw [hb] at h
    simp only [Option.map_some', Option.some_inj] at h
    exact ⟨m, rfl, h.symm⟩

/-- C5 (amended): merging a duplicate group of size at least two with the
most_complete strategy, when it does not raise a TypeError (success of the
embedded function), yields a record that contains every key present in any
member, a non-empty value for every field some member filled (a value of
maximal length among the collected values when the first collected value is
a string, the first collected value otherwise), and the is_merged and
duplicate_count tags. -/
theorem merge_most_complete_fields (group : List Record) (merged : Record)
    (hlen : 2 ≤ group.length)
    (hsucc : merge_duplicate_group group "most_complete" = some merged) :
    (∀ f, (∃ rec ∈ group, (rlookup rec f).isSome) → (rlookup merged f).isSome) ∧
    (∀ f, (∃ rec ∈ group, nonempty_val (rgetD rec f .vNone) = true) →
      ∃ v, rlookup merged f = some v ∧ nonempty_val v = true) ∧
    (∀ f, f ≠ "is_merged" → f ≠ "duplicate_count" →
      ∀ v0 vs, field_values group f = v0 :: vs →
        ∃ v, rlookup merged f = some v ∧ v ∈ v0 :: vs ∧
          ((∃ s, v0 = .vStr s) → ∀ u ∈ v0 :: vs, ∀ nu, py_len u = some nu →
            ∃ nv, py_len v = some nv ∧ nu ≤ nv) ∧
          ((∀ s, v0 ≠ .vStr s) → v = v0)) ∧
    rlookup merged "is_merged" = some (.vBool true) ∧
    rlookup merged "duplicate_count" = some (.vInt group.length) := by
  rw [merge_dg_most_complete_eq group hlen] at hsucc
  rcases merge_most_complete_parts group merged hsucc with ⟨m, hm, hmerged⟩
  have hdup : rlookup merged "duplicate_count" = some (.vInt group.length) := by
    rw [hmerged]; exact rlookup_rassign_self _ _ _
  have hism : rlookup merged "is_merged" = some (.vBool true) := by
    rw [hmerged, rlookup_rassign_ne _ _ _ _ (by decide)]
    exact rlookup_rassign_self _ _ _
  have hother : ∀ f, f ≠ "is_merged" → f ≠ "duplicate_count" →
      rlookup merged f = rlookup m f := by
    intro f hf1 hf2
    rw [hmerged, rlookup_rassign_ne _ _ _ _ hf2, rlookup_rassign_ne _ _ _ _ hf1]
  have hmemall : ∀ (rec : Record) (f : String), rec ∈ group → (rlookup rec f).isSome →
      f ∈ all_group_fields group := by
    intro rec f hrec hsome
    exact mem_dedup_keys _ _ (mem_group_keys group rec f hrec (mem_rkeys_of_isSome rec f hsome))
  refine ⟨?_, ?_, ?_, hism, hdup⟩
  · intro f hf
    by_cases hf1 : f = "is_merged"
    · rw [hf1, hism]; rfl
    by_cases hf2 : f = "duplicate_count"
    · rw [hf2, hdup]; rfl
    rcases hf with ⟨rec, hrec, hsome⟩
    rcases build_group_fields_lookup group _ m hm f (hmemall rec f hrec hsome) with ⟨v, hv, _⟩
    rw [hother f hf1 hf2, hv]
    rfl
  · intro f hf
    by_cases hf1 : f = "is_merged"
    · exact ⟨.vBool true, hf1 ▸ hism, rfl⟩
    by_cases hf2 : f = "duplicate_count"
    · exact ⟨.vInt group.length, hf2 ▸ hdup, rfl⟩
    rcases hf with ⟨rec, hrec, hne⟩
    rcases build_group_fields_lookup group _ m hm f
        (hmemall rec f hrec (isSome_of_nonempty_rgetD rec f hne)) with ⟨v, hv, hmc⟩
    have hmem : rgetD rec f .vNone ∈ field_values group f := mem_field_values group f rec hrec hne
    cases hfv : field_values group f with
    | nil => rw [hfv] at hmem; simp at hmem
    | cons v0 vs =>
      rw [hfv] at hmc
      refine ⟨v, by rw [hother f hf1 hf2, hv], ?_⟩
      exact field_values_nonempty group f v (hfv ▸ most_complete_value_mem v0 vs v hmc)
  · intro f hf1 hf2 v0 vs hfv
    have hv0mem : v0 ∈ field_values group f := hfv ▸ List.mem_cons_self v0 vs
    rcases field_values_mem_rec group f v0 hv0mem with ⟨rec, hrec, hget⟩
    have hsome : (rlookup rec f).isSome :=
      isSome_of_nonempty_rgetD rec f (hget ▸ field_values_nonempty group f v0 hv0mem)
    rcases build_group_fields_lookup group _ m hm f (hmemall rec f hrec hsome) with ⟨v, hv, hmc⟩
    rw [hfv] at hmc
    refine ⟨v, by rw [hother f hf1 hf2, hv], most_complete_value_mem v0 vs v hmc, ?_, ?_⟩
    · rintro ⟨s, hs⟩ u hu nu hnu
      subst hs
      unfold most_complete_value at hmc
      exact (py_max_by_len_spec _ vs v hmc).2 u hu nu hnu
    · intro hns
      cases v0 with
      | vStr s => exact absurd rfl (hns s)
      | vInt n => exact (Option.some_inj.mp hmc).symm
      | vBool b => exact (Option.some_inj.mp hmc).symm
      | vNone => exact (Option.some_inj.mp hmc).symm

/-- C5 counterexample: a group whose field collects a string first and an
int second makes max(values, key=len) raise a TypeError, so the most_complete
merge produces no record at all, although both members hold non-empty values
for the field. -/
theorem merge_most_complete_typeerror_cex :
    merge_duplicate_group [[("f", .vStr "ab")], [("f", .vInt 1)]] "most_complete" = none := by
  decide

/-- Witness for C5 at a concrete two-record group. -/
theorem merge_most_complete_fields_witness :
    rlookup [("owner_name", Value.vStr "Joe Smith"), ("city", Value.vStr "Raleigh"),
        ("is_merged", Value.vBool true), ("duplicate_count", Value.vInt 2)] "is_merged" =
      some (.vBool true) ∧
    rlookup [("owner_name", Value.vStr "Joe Smith"), ("city", Value.vStr "Raleigh"),
        ("is_merged", Value.vBool true), ("duplicate_count", Value.vInt 2)] "duplicate_count" =
      some (.vInt 2) :=
  ⟨(merge_most_complete_fields
      [[("owner_name", .vStr "Jo")], [("owner_name", .vStr "Joe Smith"), ("city", .vStr "Raleigh")]]
      [("owner_name", Value.vStr "Joe Smith"), ("city", Value.vStr "Raleigh"),
        ("is_merged", Value.vBool true), ("duplicate_count", Value.vInt 2)]
      (by decide) (by decide)).2.2.2.1,
   (merge_most_complete_fields
      [[("owner_name", .vStr "Jo")], [("owner_name", .vStr "Joe Smith"), ("city", .vStr "Raleigh")]]
      [("owner_name", Value.vStr "Joe Smith"), ("city", Value.vStr "Raleigh"),
        ("is_merged", Value.vBool true), ("duplicate_count", Value.vInt 2)]
      (by decide) (by decide)).2.2.2.2⟩

theorem seq_option_length {α : Type} (xs : List (Option α)) :
    ∀ ys, seq_option xs = some ys → ys.length = xs.length := by
  induction xs with
  | nil =>
    intro ys h
    simp only [seq_option, Option.some_inj] at h
    rw [← h]
    rfl
  | cons o os ih =>
    intro ys h
    simp only [seq_option, Option.bind_eq_bind, Option.bind_eq_some, Option.pure_def,
      Option.some_inj] at h
    rcases h with ⟨x, _, rest, hrest, hys⟩
    rw [← hys]
    simp [ih rest hrest]

theorem seq_option_mem {α : Type} (xs : List (Option α)) :
    ∀ ys y, seq_option xs = some ys → y ∈ ys → some y ∈ xs := by
  induction xs with
  | nil =>
    intro ys y h hy
    simp only [seq_option, Option.some_inj] at h
    rw [← h] at hy
    simp at hy
  | cons o os ih =>
    intro ys y h hy
    simp only [seq_option, Option.bind_eq_bind, Option.bind_eq_some, Option.pure_def,
      Option.some_inj] at h
    rcases h with ⟨x, hx, rest, hrest, hys⟩
    rw [← hys] at hy
    rcases List.mem_cons.mp hy with hy | hy
    · subst hy
      exact List.mem_cons.mpr (Or.inl hx.symm)
    · exact List.mem_cons.mpr (Or.inr (ih rest y hrest hy))

theorem cross_pairs_length (A B : List Record) :
    (cross_pairs A B).length = A.length * B.length := by
  induction A with
  | nil => simp [cross_pairs]
  | cons a as ih =>
    simp only [cross_pairs, List.length_append, List.length_map, ih,
      List.length_cons, Nat.succ_mul]
    exact Nat.add_comm _ _

theorem cross_pairs_mem (A B : List Record) (o : Option Record)
    (h : o ∈ cross_pairs A B) :
    ∃ a ∈ A, ∃ b ∈ B, o = merge_record_pair a b none := by
  induction A with
  | nil => simp [cross_pairs] at h
  | cons a as ih =>
    simp only [cross_pairs] at h
    rcases List.mem_append.mp h with h | h
    · rcases List.mem_map.mp h with ⟨b, hb, ho⟩
      exact ⟨a, List.mem_cons_self _ _, b, hb, ho.symm⟩
    · rcases ih h with ⟨a', ha', b, hb, ho⟩
      exact ⟨a', List.mem_cons.mpr (Or.inr ha'), b, hb, ho⟩

theorem merge_record_pair_flag (a b : Record) (p : Option String) (r : Record)
    (h : merge_record_pair a b p = some r) :
    rlookup r "is_cross_source_merged" = some (.vBool true) := by
  unfold merge_record_pair at h
  cases hb : build_pair_fields a b p (dedup_keys (rkeys a ++ rkeys b)) with
  | none => rw [hb] at h; simp at h
  | some m =>
    rw [hb] at h
    simp only [Option.map_some', Option.some_inj] at h
    rw [← h]
    exact rlookup_rassign_self _ _ _

theorem glookup_group_add_mem (acc : List (String × List Record)) (k' k : String)
    (rec x : Record) (h : x ∈ glookup (group_add acc k' rec) k) :
    x ∈ glookup acc k ∨ x = rec := by
  induction acc with
  | nil =>
    simp only [group_add, glookup] at h
    by_cases h0 : k' = k
    · rw [if_pos h0] at h
      simp at h
      exact Or.inr h
    · rw [if_neg h0] at h
      simp at h
  | cons p rest ih =>
    obtain ⟨k0, l0⟩ := p
    by_cases h0 : k0 = k'
    · rw [show group_add ((k0, l0) :: rest) k' rec = (k0, l0 ++ [rec]) :: rest from by
        simp [group_add, h0]] at h
      by_cases h1 : k0 = k
      · simp only [glookup, h1, if_pos rfl] at h ⊢
        rcases List.mem_append.mp h with h | h
        · exact Or.inl h
        · simp at h
          exact Or.inr h
      · simp only [glookup, h1, if_false] at h ⊢
        exact Or.inl h
    · rw [show group_add ((k0, l0) :: rest) k' rec = (k0, l0) :: group_add rest k' rec from by
        simp [group_add, h0]] at h
      by_cases h1 : k0 = k
      · simp only [glookup, h1, if_pos rfl] at h ⊢
        exact Or.inl h
      · simp only [glookup, h1, if_false] at h ⊢
        exact ih h

theorem group_by_key_go_truthy (key : String) (records : List Record) :
    ∀ acc, (∀ k x, x ∈ glookup acc k → py_truthy (rgetD x key .vNone) = true) →
      ∀ k x, x ∈ glookup (records.foldl
        (fun acc r =>
          let kv := rgetD r key .vNone
          if py_truthy kv then group_add acc (norm_key kv) r else acc) acc) k →
        py_truthy (rgetD x key .vNone) = true := by
  induction records with
  | nil => intro acc hacc k x h; exact hacc k x h
  | cons r rs ih =>
    intro acc hacc k x h
    simp only [List.foldl_cons] at h
    by_cases hr : py_truthy (rgetD r key .vNone) = true
    · rw [if_pos hr] at h
      refine ih _ ?_ k x h
      intro k' x' hx'
      rcases glookup_group_add_mem acc _ k' r x' hx' with hx' | hx'
      · exact hacc k' x' hx'
      · rw [hx']; exact hr
    · rw [if_neg hr] at h
      exact ih acc hacc k x h

theorem group_member_truthy (records : List Record) (key k : String) (x : Record)
    (h : x ∈ glookup (group_by_key records key) k) :
    py_truthy (rgetD x key .vNone) = true := by
  unfold group_by_key at h
  exact group_by_key_go_truthy key records [] (fun k x hx => by simp [glookup] at hx) k x h

theorem glookup_ne_nil_mem (g : List (String × List Record)) (k : String)
    (h : glookup g k ≠ []) : k ∈ g.map (·.1) := by
  induction g with
  | nil => simp [glookup] at h
  | cons p rest ih =>
    obtain ⟨k0, l0⟩ := p
    by_cases h0 : k0 = k
    · simp [h0]
    · simp only [glookup, h0, if_false] at h
      simp only [List.map_cons]
      exact List.mem_cons.mpr (Or.inr (ih h))

theorem process_key_merged (wb ob : List (String × List Record)) (k : String) :
    ∀ p, process_key wb ob k = some p → p.2.2.2 = merged_pairs_count wb ob k := by
  intro p hp
  unfold process_key at hp
  unfold merged_pairs_count
  by_cases hb : (!(glookup wb k).isEmpty && !(glookup ob k).isEmpty) = true
  · rw [if_pos hb] at hp
    rw [if_pos hb]
    cases hs : seq_option (cross_pairs (glookup wb k) (glookup ob k)) with
    | none => rw [hs] at hp; simp at hp
    | some l =>
      rw [hs] at hp
      simp only [Option.map_some', Option.some_inj] at hp
      rw [← hp]
      rw [seq_option_length _ l hs, cross_pairs_length]
  · rw [if_neg hb] at hp
    rw [if_neg hb]
    by_cases hw : (glookup wb k).isEmpty = false
    · rw [if_pos (by simp [hw])] at hp
      simp only [Option.some_inj] at hp
      rw [← hp]
    · rw [if_neg (by simpa using hw)] at hp
      simp only [Option.some_inj] at hp
      rw [← hp]

theorem process_key_out (wb ob : List (String × List Record)) (k : String) :
    ∀ p x, process_key wb ob k = some p → x ∈ p.1 →
      x ∈ glookup wb k ∨ x ∈ glookup ob k ∨
        ∃ a b, merge_record_pair a b none = some x := by
  intro p x hp hx
  unfold process_key at hp
  by_cases hb : (!(glookup wb k).isEmpty && !(glookup ob k).isEmpty) = true
  · rw [if_pos hb] at hp
    cases hs : seq_option (cross_pairs (glookup wb k) (glookup ob k)) with
    | none => rw [hs] at hp; simp at hp
    | some l =>
      rw [hs] at hp
      simp only [Option.map_some', Option.some_inj] at hp
      rw [← hp] at hx
      have := seq_option_mem _ l x hs hx
      rcases cross_pairs_mem _ _ _ this with ⟨a, _, b, _, ho⟩
      exact Or.inr (Or.inr ⟨a, b, ho.symm⟩)
  · rw [if_neg hb] at hp
    by_cases hw : (glookup wb k).isEmpty = false
    · rw [if_pos (by simp [hw])] at hp
      simp only [Option.some_inj] at hp
      rw [← hp] at hx
      exact Or.inl hx
    · rw [if_neg (by simpa using hw)] at hp
      simp only [Option.some_inj] at hp
      rw [← hp] at hx
      exact Or.inr (Or.inl hx)

theorem merge_keys_go_some (wb ob : List (String × List Record)) (ks : List String) :
    ∀ t, merge_keys_go wb ob ks = some t → ∀ k ∈ ks, ∃ p, process_key wb ob k = some p := by
  induction ks with
  | nil => intro t _ k hk; simp at hk
  | cons k0 rest ih =>
    intro t ht k hk
    simp only [merge_keys_go, Option.bind_eq_bind, Option.bind_eq_some, Option.pure_def,
      Option.some_inj] at ht
    rcases ht with ⟨p, hp, t', ht', _⟩
    rcases List.mem_cons.mp hk with hk | hk
    · exact ⟨p, hk ▸ hp⟩
    · exact ih t' ht' k hk

theorem merge_keys_go_merged (wb ob : List (String × List Record)) (ks : List String) :
    ∀ t, merge_keys_go wb ob ks = some t →
      t.2.2.2 = (ks.map (merged_pairs_count wb ob)).sum := by
  induction ks with
  | nil =>
    intro t ht
    simp only [merge_keys_go, Option.some_inj] at ht
    rw [← ht]
    simp
  | cons k0 rest ih =>
    intro t ht
    simp only [merge_keys_go, Option.bind_eq_bind, Option.bind_eq_some, Option.pure_def,
      Option.some_inj] at ht
    rcases ht with ⟨p, hp, t', ht', hteq⟩
    rw [← hteq]
    simp only [List.map_cons, List.sum_cons]
    rw [process_key_merged wb ob k0 p hp, ih t' ht']

theorem merge_keys_go_out (wb ob : List (String × List Record)) (ks : List String) :
    ∀ t x, merge_keys_go wb ob ks = some t → x ∈ t.1 →
      ∃ k ∈ ks, ∃ p, process_key wb ob k = some p ∧ x ∈ p.1 := by
  induction ks with
  | nil =>
    intro t x ht hx
    simp only [merge_keys_go, Option.some_inj] at ht
    rw [← ht] at hx
    simp at hx
  | cons k0 rest ih =>
    intro t x ht hx
    simp only [merge_keys_go, Option.bind_eq_bind, Option.bind_eq_some, Option.pure_def,
      Option.some_inj] at ht
    rcases ht with ⟨p, hp, t', ht', hteq⟩
    rw [← hteq] at hx
    rcases List.mem_append.mp hx with hx | hx
    · exact ⟨k0, List.mem_cons_self _ _, p, hp, hx⟩
    · rcases ih t' x ht' hx with ⟨k, hk, q, hq, hxq⟩
      exact ⟨k, List.mem_cons.mpr (Or.inr hk), q, hq, hxq⟩

theorem merge_sources_parts (wake orange : List Record) (key : String)
    (out : List Record) (stats : MergeStats)
    (h : merge_sources wake orange key = some (out, stats)) :
    ∃ t, merge_keys_go (group_by_key wake key) (group_by_key orange key)
        (all_merge_keys (group_by_key wake key) (group_by_key orange key)) = some t ∧
      out = t.1 ∧ stats.merged = t.2.2.2 := by
  unfold merge_sources at h
  simp only [Option.map_eq_some'] at h
  rcases h with ⟨t, ht, heq⟩
  refine ⟨t, ht, (congrArg Prod.fst heq).symm, ?_⟩
  have hs := congrArg Prod.snd heq
  simp only [Prod.snd] at hs
  rw [← hs]

/-- C1 (amended): an input record whose merge-key value is falsy (key absent,
None, empty string, or otherwise falsy) is excluded from grouping and appears
nowhere in the output of merge_sources — unless the record itself already
carries the is_cross_source_merged=True tag, which fresh source records never
do.  Appearing is read extensionally: no output record agrees with it on
every field. -/
theorem merge_sources_drops_keyless (wake orange : List Record) (key : String)
    (r : Record) (out : List Record) (stats : MergeStats)
    (hms : merge_sources wake orange key = some (out, stats))
    (hkey : py_truthy (rgetD r key .vNone) = false)
    (hflag : rlookup r "is_cross_source_merged" ≠ some (.vBool true)) :
    ∀ x ∈ out, ¬ (∀ f, rlookup x f = rlookup r f) := by
  intro x hx heq
  rcases merge_sources_parts wake orange key out stats hms with ⟨t, ht, hout, _⟩
  rw [hout] at hx
  rcases merge_keys_go_out _ _ _ t x ht hx with ⟨k, _, p, hp, hxp⟩
  rcases process_key_out _ _ k p x hp hxp with hxg | hxg | ⟨a, b, hab⟩
  · have htr := group_member_truthy wake key k x hxg
    rw [show rgetD x key .vNone = rgetD r key .vNone from by
      unfold rgetD; rw [heq key]] at htr
    rw [hkey] at htr
    exact Bool.false_ne_true htr
  · have htr := group_member_truthy orange key k x hxg
    rw [show rgetD x key .vNone = rgetD r key .vNone from by
      unfold rgetD; rw [heq key]] at htr
    rw [hkey] at htr
    exact Bool.false_ne_true htr
  · have hfl := merge_record_pair_flag a b none x hab
    rw [heq "is_cross_source_merged"] at hfl
    exact hflag hfl

/-- C1 counterexample: a source record without the merge key is dropped by
merge_sources — the output list is empty and no statistic counts it,
although the claim demands that it pass through as "only in source X". -/
theorem merge_sources_keyless_dropped_cex :
    merge_sources [[("owner_name", Value.vStr "Alice")]] [] "parcel_id" =
      some ([], ⟨0, 0, 0, 0⟩) := by decide

/-- Witness for C1 at a concrete run. -/
theorem merge_sources_drops_keyless_witness :
    ¬ (∀ f, rlookup [("parcel_id", Value.vStr "P1"), ("owner_name", Value.vStr "Alice")] f =
        rlookup [("owner_name", Value.vStr "Bob")] f) :=
  merge_sources_drops_keyless
    [[("parcel_id", Value.vStr "P1"), ("owner_name", Value.vStr "Alice")]] [] "parcel_id"
    [("owner_name", Value.vStr "Bob")]
    [[("parcel_id", Value.vStr "P1"), ("owner_name", Value.vStr "Alice")]]
    ⟨1, 0, 0, 1⟩ (by decide) (by decide) (by decide)
    [("parcel_id", Value.vStr "P1"), ("owner_name", Value.vStr "Alice")] (by decide)

/-- C2 (amended): for every key present in both grouped sources with m and n
records, merge_sources — when it succeeds, i.e. no pair merge raises a
TypeError — produces for that key exactly the m*n cross-product pair merges,
each tagged is_cross_source_merged=true, and its merged statistic sums one
per pair over all co-present keys. -/
theorem merge_sources_cross_product (wake orange : List Record) (key k : String)
    (out : List Record) (stats : MergeStats)
    (hms : merge_sources wake orange key = some (out, stats))
    (hw : glookup (group_by_key wake key) k ≠ [])
    (ho : glookup (group_by_key orange key) k ≠ []) :
    ∃ blk, seq_option (cross_pairs (glookup (group_by_key wake key) k)
        (glookup (group_by_key orange key) k)) = some blk ∧
      blk.length = (glookup (group_by_key wake key) k).length *
        (glookup (group_by_key orange key) k).length ∧
      (∀ x ∈ blk, rlookup x "is_cross_source_merged" = some (.vBool true)) ∧
      stats.merged = ((all_merge_keys (group_by_key wake key) (group_by_key orange key)).map
        (merged_pairs_count (group_by_key wake key) (group_by_key orange key))).sum := by
  rcases merge_sources_parts wake orange key out stats hms with ⟨t, ht, _, hmerged⟩
  have hsum := hmerged.trans (merge_keys_go_merged _ _ _ t ht)
  have hk : k ∈ all_merge_keys (group_by_key wake key) (group_by_key orange key) :=
    mem_dedup_keys _ _ (List.mem_append.mpr (Or.inl (glookup_ne_nil_mem _ _ hw)))
  rcases merge_keys_go_some _ _ _ t ht k hk with ⟨p, hp⟩
  unfold process_key at hp
  have h1 : (glookup (group_by_key wake key) k).isEmpty = false := by
    cases hgl : glookup (group_by_key wake key) k with
    | nil => exact absurd hgl hw
    | cons a l => rfl
  have h2 : (glookup (group_by_key orange key) k).isEmpty = false := by
    cases hgl : glookup (group_by_key orange key) k with
    | nil => exact absurd hgl ho
    | cons a l => rfl
  rw [if_pos (by simp [h1, h2])] at hp
  cases hs : seq_option (cross_pairs (glookup (group_by_key wake key) k)
      (glookup (group_by_key orange key) k)) with
  | none => rw [hs] at hp; simp at hp
  | some blk =>
    refine ⟨blk, rfl, ?_, ?_, hsum⟩
    · rw [seq_option_length _ blk hs, cross_pairs_length]
    · intro x hx
      have hmem := seq_option_mem _ blk x hs hx
      rcases cross_pairs_mem _ _ _ hmem with ⟨a, _, b, _, hab⟩
      exact merge_record_pair_flag a b none x hab.symm

/-- C2 counterexample: a key present on both sides whose records carry
extracted_at values of different types (string vs int) makes
merge_record_pair raise a TypeError in max(), so merge_sources produces no
records at all instead of the claimed 1*1 merged record. -/
theorem merge_sources_typeerror_cex :
    merge_sources [[("parcel_id", Value.vStr "P1"), ("extracted_at", Value.vStr "2024-01-01")]]
      [[("parcel_id", Value.vStr "P1"), ("extracted_at", Value.vInt 5)]] "parcel_id" = none := by
  decide

/-- Witness for C2 at a concrete run with one record on each side. -/
theorem merge_sources_cross_product_witness :
    ∃ blk, seq_option (cross_pairs
        (glookup (group_by_key [[("parcel_id", Value.vStr "P1")]] "parcel_id") "P1")
        (glookup (group_by_key [[("parcel_id", Value.vStr "P1"), ("owner_name", Value.vStr "X")]]
          "parcel_id") "P1")) = some blk ∧
      blk.length = (glookup (group_by_key [[("parcel_id", Value.vStr "P1")]] "parcel_id") "P1").length *
        (glookup (group_by_key [[("parcel_id", Value.vStr "P1"), ("owner_name", Value.vStr "X")]]
          "parcel_id") "P1").length ∧
      (∀ x ∈ blk, rlookup x "is_cross_source_merged" = some (.vBool true)) ∧
      MergeStats.merged ⟨0, 0, 1, 1⟩ =
        ((all_merge_keys (group_by_key [[("parcel_id", Value.vStr "P1")]] "parcel_id")
            (group_by_key [[("parcel_id", Value.vStr "P1"), ("owner_name", Value.vStr "X")]]
              "parcel_id")).map
          (merged_pairs_count (group_by_key [[("parcel_id", Value.vStr "P1")]] "parcel_id")
            (group_by_key [[("parcel_id", Value.vStr "P1"), ("owner_name", Value.vStr "X")]]
              "parcel_id"))).sum :=
  merge_sources_cross_product [[("parcel_id", Value.vStr "P1")]]
    [[("parcel_id", Value.vStr "P1"), ("owner_name", Value.vStr "X")]] "parcel_id" "P1"
    [[("parcel_id", Value.vStr "P1"), ("owner_name", Value.vStr "X"),
      ("is_cross_source_merged", Value.vBool true)]]
    ⟨0, 0, 1, 1⟩ (by decide) (by decide) (by decide)
